import Mathlib

/-!
Verification of the windowed log-query aggregator of
`amazon_genomics/wes/adapters/NextflowWESAdapter.py`.

The Python source is shallowly embedded below.  Epoch timestamps are `Int`
(Python integers), log rows are insertion-ordered association lists (Python
dicts built by a comprehension), and the CloudWatch Logs backend is an
oracle supplying, for every planned window, the successive responses of
`get_query_results`.  A run returns the trace of `start_query` calls
(start/end bounds actually passed) together with `none` for a never-ending
poll loop, `some (Except.error _)` for a raised exception, and
`some (Except.ok rows)` for a normal return.
-/

namespace NextflowWES

/-- One `field`/`value` entry of a CloudWatch Logs Insights result row. -/
structure ResultField where
  field : String
  value : String
  deriving DecidableEq

/-- A normalized log row: a Python dict from field name to value,
kept as an insertion-ordered association list with unique keys. -/
abbrev LogRow := List (String × String)

/-- One response of `get_query_results`: a status string and the result rows. -/
structure QueryResponse where
  status : String
  results : List (List ResultField)
  deriving DecidableEq

/-- The exceptions this code can raise: `InternalServerError(msg)` from the
poll loop, and a Python `KeyError` from a missing dict key. -/
inductive AdapterError where
  | internalServerError : String → AdapterError
  | keyError : String → AdapterError
  deriving DecidableEq

/-- The `container` part of an AWS Batch job description:
only the optional `logStreamName` is used by this code. -/
structure ContainerDetail where
  logStreamName : Option String
  deriving DecidableEq

/-- The slice of an AWS Batch `JobDetail` read by this code: `jobId`
(via `.get`, hence optional), optional `startedAt` and `stoppedAt`
epoch timestamps, and the container's log stream reference. -/
structure JobDetail where
  jobId : Option String
  startedAt : Option Int
  stoppedAt : Option Int
  container : ContainerDetail
  deriving DecidableEq

/-- Python dict insertion: overwrite the value in place if the key is
present, otherwise append the pair at the end. -/
def dictInsert (d : List (String × String)) (k v : String) : List (String × String) :=
  if d.any (fun p => p.1 == k) then d.map (fun p => if p.1 == k then (k, v) else p)
  else d ++ [(k, v)]

/-- One step of the dict comprehension in `to_dict`: skip the reserved
record-locator field, insert every other `field`/`value` pair. -/
def insertStep (d : List (String × String)) (r : ResultField) : List (String × String) :=
  if r.field == "@ptr" then d else dictInsert d r.field r.value

/-- Embeds `to_dict(results)`: converts a CloudWatch result row (a list of
`field`/`value` entries) into a dict, dropping the internal locator
field `@ptr` (source lines 172-177). -/
def to_dict (results : List ResultField) : LogRow :=
  results.foldl insertStep []

/-- Number of elements of Python's `range(start, stop, step)` for a
positive step: `max 0 (ceil ((stop - start) / step))`. -/
def rangeCount (start stop step : Int) : Nat :=
  ((stop - start + step - 1) / step).toNat

/-- Builds `n` equally spaced points `start, start+step, ...`. -/
def rangeFrom (start step : Int) : Nat → List Int
  | 0 => []
  | n + 1 => start :: rangeFrom (start + step) step n

/-- Python's `list(range(start, stop, step))` for a positive step. -/
def pythonRange (start stop step : Int) : List Int :=
  rangeFrom start step (rangeCount start stop step)

/-- Embeds `pairwise(iterable)` (source lines 181-189): successive overlapping
pairs, i.e. `zip(l, l[1:])`. -/
def pairwise (l : List Int) : List (Int × Int) :=
  l.zip l.tail

/-- The breakpoint list of `query_logs_for_job` (source lines 141-143):
`list(range(start_time, last_time_point, 600))`, with `last_time_point`
appended when not already a member. -/
def timePoints (startTime lastTimePoint : Int) : List Int :=
  if lastTimePoint ∈ pythonRange startTime lastTimePoint 600
  then pythonRange startTime lastTimePoint 600
  else pythonRange startTime lastTimePoint 600 ++ [lastTimePoint]

/-- The planned windows: consecutive breakpoint pairs (source line 144). -/
def timeRanges (startTime lastTimePoint : Int) : List (Int × Int) :=
  pairwise (timePoints startTime lastTimePoint)

/-- The end-bound adjustment of the `start_query` call (source line 152):
`endTime = time_range[1] - 1 if time_range[1] != last_time_point else
last_time_point`, paired with the unconditional start bound. -/
def adjustEnd (lastTimePoint : Int) (tr : Int × Int) : Int × Int :=
  (tr.1, if tr.2 ≠ lastTimePoint then tr.2 - 1 else lastTimePoint)

/-- Embeds `last_time_point = end_time or int(time.time())` (source line 140):
a falsy `stoppedAt` (absent or zero) is replaced by the current time. -/
def effectiveEnd (stoppedAt : Option Int) (now : Int) : Int :=
  match stoppedAt with
  | some e => if e = 0 then now else e
  | none => now

/-- The poll-loop continuation condition (source line 158):
`response["status"] in ("Scheduled", "Running")`. -/
def isPending (st : String) : Bool :=
  st == "Scheduled" || st == "Running"

/-- The first response of a poll sequence whose status is no longer
pending; `none` when every supplied response is pending (the `while`
loop of source lines 158-161 would keep polling). -/
def pollFirst : List QueryResponse → Option QueryResponse
  | [] => none
  | r :: rest => if isPending r.status then pollFirst rest else some r

/-- The exception raised on a terminal non-complete status (source line 163). -/
def queryFailed : AdapterError :=
  AdapterError.internalServerError "Logs query for child tasks was not successful"

/-- Outcome of one window's query (source lines 156-165): poll until the
status leaves `Scheduled`/`Running`; raise unless it is `Complete`;
otherwise normalize the rows with `to_dict`. -/
def windowOutcome (resps : List QueryResponse) : Option (Except AdapterError (List LogRow)) :=
  match pollFirst resps with
  | none => none
  | some r =>
    if r.status == "Complete" then some (Except.ok (r.results.map to_dict))
    else some (Except.error queryFailed)

/-- The `for time_range in time_ranges` loop (source lines 148-165): for
each window, record the `start_query` bounds, consume that window's poll
responses, abort on failure, and accumulate the normalized rows in window
order.  Returns the call trace and the overall outcome. -/
def runWindows (lastTimePoint : Int) :
    List (Int × Int) → List (List QueryResponse) →
    List (Int × Int) × Option (Except AdapterError (List LogRow))
  | [], _ => ([], some (Except.ok []))
  | tr :: rest, oracle =>
    let call := adjustEnd lastTimePoint tr
    match windowOutcome (oracle.headD []) with
    | none => ([call], none)
    | some (Except.error e) => ([call], some (Except.error e))
    | some (Except.ok rows) =>
      let next := runWindows lastTimePoint rest oracle.tail
      (call :: next.1, Option.map (Except.map (fun acc => rows ++ acc)) next.2)

/-- Embeds `query_logs_for_job` (source lines 126-167).  `start_time` is read with
`.get` and tested for falsiness, so both an absent and a zero `startedAt`
short-circuit to an empty result before any backend interaction. -/
def query_logs_for_job (job : JobDetail) (now : Int)
    (oracle : List (List QueryResponse)) :
    List (Int × Int) × Option (Except AdapterError (List LogRow)) :=
  match job.startedAt with
  | none => ([], some (Except.ok []))
  | some st =>
    if st = 0 then ([], some (Except.ok []))
    else
      runWindows (effectiveEnd job.stoppedAt now)
        (timeRanges st (effectiveEnd job.stoppedAt now)) oracle

/-- A value of the dict returned by `get_task_outputs`: either a job
identifier string (possibly `None`) or a list of extracted rows. -/
inductive SummaryValue where
  | str : Option String → SummaryValue
  | rows : List LogRow → SummaryValue
  deriving DecidableEq

/-- The dict literal returned by `get_task_outputs` (source lines 85-88):
`{"id": head_job.get("jobId"), "outputs": outputs}`. -/
def taskSummary (job : JobDetail) (outs : List LogRow) : List (String × SummaryValue) :=
  [("id", SummaryValue.str job.jobId), ("outputs", SummaryValue.rows outs)]

/-- Embeds `get_task_outputs` (source lines 68-88): when the container has a log
stream, run the task-outcome extraction query and wrap the rows; otherwise
`outputs` stays the empty list and no query is made. -/
def get_task_outputs (job : JobDetail) (now : Int)
    (oracle : List (List QueryResponse)) :
    List (Int × Int) × Option (Except AdapterError (List (String × SummaryValue))) :=
  match job.container.logStreamName with
  | none => ([], some (Except.ok (taskSummary job [])))
  | some _ =>
    let q := query_logs_for_job job now oracle
    (q.1, Option.map (Except.map (taskSummary job)) q.2)

/-- Embeds `get_child_tasks` (source lines 90-106): without a log stream, return
`[]` at once; otherwise run the child-discovery query, read each row's
`jobId` (a Python `KeyError` if absent), and resolve the identifiers
through the external `describe_jobs` collaborator. -/
def get_child_tasks (job : JobDetail) (now : Int)
    (oracle : List (List QueryResponse))
    (describe_jobs : List String → List JobDetail) :
    List (Int × Int) × Option (Except AdapterError (List JobDetail)) :=
  match job.container.logStreamName with
  | none => ([], some (Except.ok []))
  | some _ =>
    let q := query_logs_for_job job now oracle
    (q.1,
      match q.2 with
      | none => none
      | some (Except.error e) => some (Except.error e)
      | some (Except.ok rowsList) =>
        match rowsList.mapM (fun row => List.lookup "jobId" row) with
        | none => some (Except.error (AdapterError.keyError "jobId"))
        | some ids => some (Except.ok (describe_jobs ids)))

/-- Number of planned windows for start `s` and effective end `e`. -/
def numWindows (s e : Int) : Nat :=
  rangeCount s e 600

/-- The `i`-th planned window (out-of-range default `(0, 0)`). -/
def windowAt (s e : Int) (i : Nat) : Int × Int :=
  (timeRanges s e).getD i (0, 0)

/-- The `start_query` bounds submitted for the `i`-th planned window. -/
def callAt (s e : Int) (i : Nat) : Int × Int :=
  adjustEnd e (windowAt s e i)

/-- A zero-duration job used as the concrete counterexample to claim C4:
started and stopped at the same epoch second. -/
def zeroDurationJob : JobDetail :=
  ⟨some "job-z", some 100, some 100, ⟨some "stream-z"⟩⟩

/-- A two-window job used to witness C9: runs from second 1 to second 700,
so the planner yields the windows `(1, 601)` and `(601, 700)` and the
adjusted call bounds `(1, 600)` and `(601, 700)`. -/
def twoWindowJob : JobDetail :=
  ⟨some "job-9", some 1, some 700, ⟨some "stream-9"⟩⟩

/-- The backend responses used to witness C9: window 0 polls through one
pending state and completes with one row, window 1 completes at once with
two rows. -/
def twoWindowOracle : List (List QueryResponse) :=
  [[⟨"Running", []⟩, ⟨"Complete", [[⟨"@ptr", "p0"⟩, ⟨"task", "a"⟩]]⟩],
   [⟨"Complete", [[⟨"task", "b"⟩], [⟨"task", "c"⟩]]⟩]]

/-- A job used as the concrete counterexample to claim C8. -/
def namedJob : JobDetail :=
  ⟨some "job-123", some 5, some 10, ⟨none⟩⟩

/-! ### Basic list lemmas for the planner -/

lemma rangeFrom_length (start step : Int) (n : Nat) :
    (rangeFrom start step n).length = n := by
  induction n generalizing start with
  | zero => rfl
  | succ k ih => simp [rangeFrom, ih]

lemma rangeFrom_getD (start step : Int) (n i : Nat) (h : i < n) :
    (rangeFrom start step n).getD i 0 = start + step * i := by
  induction n generalizing start i with
  | zero => omega
  | succ k ih =>
    cases i with
    | zero => simp [rangeFrom]
    | succ j =>
      have hj : j < k := by omega
      rw [rangeFrom, List.getD_cons_succ, ih (start + step) j hj]
      push_cast
      ring

lemma mem_rangeFrom (start step x : Int) (n : Nat)
    (h : x ∈ rangeFrom start step n) :
    ∃ i : Nat, i < n ∧ x = start + step * i := by
  induction n generalizing start with
  | zero => simp [rangeFrom] at h
  | succ k ih =>
    rw [rangeFrom, List.mem_cons] at h
    rcases h with h | h
    · exact ⟨0, by omega, by simp [h]⟩
    · obtain ⟨i, hi, hx⟩ := ih (start + step) h
      refine ⟨i + 1, by omega, ?_⟩
      rw [hx]
      push_cast
      ring

lemma getD_append_lt (l₁ l₂ : List Int) (i : Nat) (d : Int) (h : i < l₁.length) :
    (l₁ ++ l₂).getD i d = l₁.getD i d := by
  induction l₁ generalizing i with
  | nil => simp at h
  | cons x xs ih =>
    cases i with
    | zero => rfl
    | succ j =>
      rw [List.cons_append, List.getD_cons_succ, List.getD_cons_succ]
      exact ih j (by simpa using h)

lemma getD_append_len (l₁ l₂ : List Int) (d : Int) :
    (l₁ ++ l₂).getD l₁.length d = l₂.getD 0 d := by
  induction l₁ with
  | nil => rfl
  | cons x xs ih => simpa using ih

/-! ### Window-count bounds -/

lemma numWindows_pos (s e : Int) (h : s < e) : 1 ≤ numWindows s e := by
  unfold numWindows rangeCount
  omega

lemma numWindows_lb (s e : Int) (h : s < e) :
    600 * ((numWindows s e : Int) - 1) < e - s := by
  unfold numWindows rangeCount
  omega

lemma numWindows_ub (s e : Int) (h : s < e) :
    e - s ≤ 600 * (numWindows s e : Int) := by
  unfold numWindows rangeCount
  omega

/-! ### The breakpoint list -/

lemma end_not_mem_pythonRange (s e : Int) (h : s < e) :
    e ∉ pythonRange s e 600 := by
  intro hm
  have hm' : e ∈ rangeFrom s 600 (rangeCount s e 600) := hm
  obtain ⟨i, hi, hx⟩ := mem_rangeFrom _ _ _ _ hm'
  unfold rangeCount at hi
  omega

lemma timePoints_eq (s e : Int) (h : s < e) :
    timePoints s e = pythonRange s e 600 ++ [e] := by
  unfold timePoints
  rw [if_neg (end_not_mem_pythonRange s e h)]

lemma pythonRange_length (s e step : Int) :
    (pythonRange s e step).length = rangeCount s e step :=
  rangeFrom_length s step (rangeCount s e step)

lemma timePoints_length (s e : Int) (h : s < e) :
    (timePoints s e).length = numWindows s e + 1 := by
  rw [timePoints_eq s e h]
  simp [pythonRange_length]
  rfl

lemma timePoints_getD_lt (s e : Int) (h : s < e) (i : Nat)
    (hi : i < numWindows s e) :
    (timePoints s e).getD i 0 = s + 600 * i := by
  rw [timePoints_eq s e h,
    getD_append_lt _ _ _ _ (by rw [pythonRange_length]; exact hi)]
  exact rangeFrom_getD s 600 (rangeCount s e 600) i hi

lemma timePoints_getD_last (s e : Int) (h : s < e) :
    (timePoints s e).getD (numWindows s e) 0 = e := by
  rw [timePoints_eq s e h]
  have hl : numWindows s e = (pythonRange s e 600).length := by
    rw [pythonRange_length]; rfl
  rw [hl, getD_append_len]
  rfl

/-! ### `pairwise` -/

lemma pairwise_length (l : List Int) : (pairwise l).length = l.length - 1 := by
  cases l with
  | nil => rfl
  | cons x xs =>
    simp [pairwise, List.length_zip]

lemma pairwise_getD (l : List Int) (i : Nat) (h : i + 1 < l.length) :
    (pairwise l).getD i (0, 0) = (l.getD i 0, l.getD (i + 1) 0) := by
  induction l generalizing i with
  | nil => simp at h
  | cons x xs ih =>
    cases xs with
    | nil => simp at h
    | cons y ys =>
      cases i with
      | zero => rfl
      | succ j =>
        have hstep : pairwise (x :: y :: ys) = (x, y) :: pairwise (y :: ys) := rfl
        rw [hstep, List.getD_cons_succ, List.getD_cons_succ, List.getD_cons_succ]
        exact ih j (by simpa using h)

/-! ### The planned windows, in closed form -/

lemma timeRanges_length (s e : Int) (h : s < e) :
    (timeRanges s e).length = numWindows s e := by
  unfold timeRanges
  rw [pairwise_length, timePoints_length s e h]
  omega

lemma windowAt_fst (s e : Int) (h : s < e) (i : Nat) (hi : i < numWindows s e) :
    (windowAt s e i).1 = s + 600 * i := by
  unfold windowAt timeRanges
  rw [pairwise_getD _ i (by rw [timePoints_length s e h]; omega),
    timePoints_getD_lt s e h i hi]

lemma windowAt_snd_lt (s e : Int) (h : s < e) (i : Nat)
    (hi : i + 1 < numWindows s e) :
    (windowAt s e i).2 = s + 600 * (i + 1) := by
  unfold windowAt timeRanges
  rw [pairwise_getD _ i (by rw [timePoints_length s e h]; omega),
    timePoints_getD_lt s e h (i + 1) hi]
  push_cast
  ring_nf

lemma windowAt_snd_last (s e : Int) (h : s < e) :
    (windowAt s e (numWindows s e - 1)).2 = e := by
  have hn := numWindows_pos s e h
  unfold windowAt timeRanges
  rw [pairwise_getD _ _ (by rw [timePoints_length s e h]; omega)]
  have : numWindows s e - 1 + 1 = numWindows s e := by omega
  rw [this, timePoints_getD_last s e h]

/-! ### Unfolding equations for `query_logs_for_job` -/

lemma query_logs_for_job_none (job : JobDetail) (now : Int)
    (oracle : List (List QueryResponse)) (hs : job.startedAt = none) :
    query_logs_for_job job now oracle = ([], some (Except.ok [])) := by
  unfold query_logs_for_job
  rw [hs]

lemma query_logs_for_job_zero (job : JobDetail) (now : Int)
    (oracle : List (List QueryResponse)) (hs : job.startedAt = some 0) :
    query_logs_for_job job now oracle = ([], some (Except.ok [])) := by
  unfold query_logs_for_job
  rw [hs]
  simp

lemma query_logs_for_job_some (job : JobDetail) (now st : Int)
    (oracle : List (List QueryResponse))
    (hs : job.startedAt = some st) (hnz : st ≠ 0) :
    query_logs_for_job job now oracle =
      runWindows (effectiveEnd job.stoppedAt now)
        (timeRanges st (effectiveEnd job.stoppedAt now)) oracle := by
  unfold query_logs_for_job
  rw [hs]
  simp only [hnz, reduceIte]

/-! ### Coverage of the planned interval -/

lemma cover_exists (s e : Int) (h : s < e) (t : Int) (ht1 : s ≤ t) (ht2 : t ≤ e) :
    ∃ i : Nat, i < numWindows s e ∧
      (windowAt s e i).1 ≤ t ∧ t ≤ (windowAt s e i).2 := by
  have hn := numWindows_pos s e h
  by_cases hc : t - s < 600 * ((numWindows s e : Int) - 1)
  · refine ⟨((t - s) / 600).toNat, by omega, ?_, ?_⟩
    · rw [windowAt_fst s e h _ (by omega)]
      omega
    · rw [windowAt_snd_lt s e h _ (by omega)]
      push_cast
      omega
  · refine ⟨numWindows s e - 1, by omega, ?_, ?_⟩
    · rw [windowAt_fst s e h _ (by omega)]
      push_cast
      omega
    · rw [windowAt_snd_last s e h]
      exact ht2

lemma cover_only (s e : Int) (h : s < e) (t : Int) (i : Nat)
    (hi : i < numWindows s e)
    (h1 : (windowAt s e i).1 ≤ t) (h2 : t ≤ (windowAt s e i).2) :
    s ≤ t ∧ t ≤ e := by
  have hn := numWindows_pos s e h
  have hlb := numWindows_lb s e h
  rw [windowAt_fst s e h i hi] at h1
  by_cases hc : i + 1 < numWindows s e
  · rw [windowAt_snd_lt s e h i hc] at h2
    push_cast at h2
    constructor
    · have : (0 : Int) ≤ 600 * i := by positivity
      omega
    · omega
  · have hil : i = numWindows s e - 1 := by omega
    rw [hil, windowAt_snd_last s e h] at h2
    constructor
    · have : (0 : Int) ≤ 600 * i := by positivity
      omega
    · exact h2

/-- Claim C1: for a job with `stopTime > startTime` the planner (breakpoints
`startTime, startTime+600, ...` strictly below the effective end, with the
effective end appended, paired consecutively — source lines 140-144) yields a
nonempty window sequence that starts at `startTime`, ends at the effective
end, is contiguous and strictly increasing, has every window span at most
600 seconds with every non-final window spanning exactly 600, and covers
exactly the closed interval from `startTime` to the effective end. -/
theorem C1_planner_windows (s e : Int) (h : s < e) :
    0 < (timeRanges s e).length ∧
    (windowAt s e 0).1 = s ∧
    (windowAt s e ((timeRanges s e).length - 1)).2 = e ∧
    (∀ i : Nat, i + 1 < (timeRanges s e).length →
      (windowAt s e i).2 = (windowAt s e (i + 1)).1) ∧
    (∀ i : Nat, i < (timeRanges s e).length →
      (windowAt s e i).1 < (windowAt s e i).2 ∧
      (windowAt s e i).2 - (windowAt s e i).1 ≤ 600) ∧
    (∀ i : Nat, i + 1 < (timeRanges s e).length →
      (windowAt s e i).2 - (windowAt s e i).1 = 600) ∧
    (∀ t : Int, (s ≤ t ∧ t ≤ e) ↔
      ∃ i : Nat, i < (timeRanges s e).length ∧
        (windowAt s e i).1 ≤ t ∧ t ≤ (windowAt s e i).2) := by
  have hn := numWindows_pos s e h
  have hlb := numWindows_lb s e h
  have hub := numWindows_ub s e h
  rw [timeRanges_length s e h]
  refine ⟨by omega, ?_, ?_, ?_, ?_, ?_, ?_⟩
  · rw [windowAt_fst s e h 0 (by omega)]
    simp
  · exact windowAt_snd_last s e h
  · intro i hi
    rw [windowAt_snd_lt s e h i hi, windowAt_fst s e h (i + 1) hi]
    push_cast
    ring
  · intro i hi
    rw [windowAt_fst s e h i hi]
    by_cases hc : i + 1 < numWindows s e
    · rw [windowAt_snd_lt s e h i hc]
      push_cast
      omega
    · have hil : i = numWindows s e - 1 := by omega
      rw [hil, windowAt_snd_last s e h]
      have hic : ((numWindows s e - 1 : Nat) : Int) = (numWindows s e : Int) - 1 := by
        omega
      rw [hic]
      constructor
      · omega
      · omega
  · intro i hi
    rw [windowAt_fst s e h i (by omega), windowAt_snd_lt s e h i hi]
    push_cast
    ring
  · intro t
    constructor
    · intro ht
      exact cover_exists s e h t ht.1 ht.2
    · intro ⟨i, hi, h1, h2⟩
      exact cover_only s e h t i hi h1 h2

theorem C1_planner_windows_witness :
    0 < (timeRanges 1000 2500).length ∧ (windowAt 1000 2500 0).1 = 1000 :=
  ⟨(C1_planner_windows 1000 2500 (by decide)).1,
   (C1_planner_windows 1000 2500 (by decide)).2.1⟩

/-! ### The submitted query bounds -/

lemma callAt_fst (s e : Int) (i : Nat) :
    (callAt s e i).1 = (windowAt s e i).1 := rfl

lemma windowAt_snd_ne (s e : Int) (h : s < e) (i : Nat)
    (hi : i + 1 < numWindows s e) :
    (windowAt s e i).2 ≠ e := by
  have hlb := numWindows_lb s e h
  rw [windowAt_snd_lt s e h i hi]
  push_cast
  omega

lemma callAt_snd_lt (s e : Int) (h : s < e) (i : Nat)
    (hi : i + 1 < numWindows s e) :
    (callAt s e i).2 = s + 600 * (i + 1) - 1 := by
  unfold callAt adjustEnd
  rw [if_pos (windowAt_snd_ne s e h i hi), windowAt_snd_lt s e h i hi]

lemma callAt_snd_last (s e : Int) (h : s < e) :
    (callAt s e (numWindows s e - 1)).2 = e := by
  unfold callAt adjustEnd
  rw [windowAt_snd_last s e h]
  simp

lemma call_mem_unique (s e : Int) (h : s < e) (t : Int) (i j : Nat)
    (hi : i < numWindows s e) (hj : j < numWindows s e)
    (hti1 : (callAt s e i).1 ≤ t) (hti2 : t ≤ (callAt s e i).2)
    (htj1 : (callAt s e j).1 ≤ t) (htj2 : t ≤ (callAt s e j).2) :
    i = j := by
  rcases Nat.lt_trichotomy i j with hlt | heq | hgt
  · exfalso
    rw [callAt_snd_lt s e h i (by omega)] at hti2
    rw [callAt_fst, windowAt_fst s e h j hj] at htj1
    have : (600 : Int) * (i + 1) ≤ 600 * j := by
      have : ((i : Int) + 1) ≤ (j : Int) := by push_cast; omega
      omega
    omega
  · exact heq
  · exfalso
    rw [callAt_snd_lt s e h j (by omega)] at htj2
    rw [callAt_fst, windowAt_fst s e h i hi] at hti1
    have : (600 : Int) * (j + 1) ≤ 600 * i := by
      have : ((j : Int) + 1) ≤ (i : Int) := by push_cast; omega
      omega
    omega

lemma call_mem_exists (s e : Int) (h : s < e) (t : Int)
    (ht1 : s ≤ t) (ht2 : t ≤ e) :
    ∃ i : Nat, i < numWindows s e ∧
      (callAt s e i).1 ≤ t ∧ t ≤ (callAt s e i).2 := by
  have hn := numWindows_pos s e h
  by_cases hc : t - s < 600 * ((numWindows s e : Int) - 1)
  · refine ⟨((t - s) / 600).toNat, by omega, ?_, ?_⟩
    · rw [callAt_fst, windowAt_fst s e h _ (by omega)]
      omega
    · rw [callAt_snd_lt s e h _ (by omega)]
      push_cast
      omega
  · refine ⟨numWindows s e - 1, by omega, ?_, ?_⟩
    · rw [callAt_fst, windowAt_fst s e h _ (by omega)]
      push_cast
      omega
    · rw [callAt_snd_last s e h]
      exact ht2

lemma runWindows_calls_take (ltp : Int) (trs : List (Int × Int))
    (oracle : List (List QueryResponse)) :
    ∃ k : Nat, (runWindows ltp trs oracle).1 = (trs.map (adjustEnd ltp)).take k := by
  induction trs generalizing oracle with
  | nil => exact ⟨0, rfl⟩
  | cons tr rest ih =>
    obtain ⟨k, hk⟩ := ih oracle.tail
    cases hwo : windowOutcome (oracle.headD []) with
    | none =>
      refine ⟨1, ?_⟩
      simp only [runWindows]
      rw [hwo]
      simp
    | some res =>
      cases res with
      | error err =>
        refine ⟨1, ?_⟩
        simp only [runWindows]
        rw [hwo]
        simp
      | ok rows =>
        refine ⟨k + 1, ?_⟩
        simp only [runWindows]
        rw [hwo]
        simp [hk]

/-- Claim C2: the end bound actually passed to `start_query` (source line
152) for every window whose nominal end is not the effective end is the
nominal end minus one second (and every non-final window's nominal end is
indeed not the effective end), while the final window is passed its nominal
end, the effective end itself, unadjusted; the submitted call trace is
always an initial segment of these per-window bounds, and every integer
timestamp between `startTime` and the effective end lies in exactly one
submitted inclusive range — none is covered twice, none is dropped. -/
theorem C2_boundary_bounds (s e : Int) (h : s < e) :
    (∀ i : Nat, i + 1 < (timeRanges s e).length →
      (windowAt s e i).2 ≠ e ∧ (callAt s e i).2 = (windowAt s e i).2 - 1) ∧
    ((windowAt s e ((timeRanges s e).length - 1)).2 = e ∧
      (callAt s e ((timeRanges s e).length - 1)).2 = e) ∧
    (∀ oracle : List (List QueryResponse), ∃ k : Nat,
      (runWindows e (timeRanges s e) oracle).1 = ((timeRanges s e).map (adjustEnd e)).take k) ∧
    (∀ t : Int, s ≤ t → t ≤ e →
      ∃ i : Nat, i < (timeRanges s e).length ∧
        ((callAt s e i).1 ≤ t ∧ t ≤ (callAt s e i).2) ∧
        ∀ j : Nat, j < (timeRanges s e).length →
          (callAt s e j).1 ≤ t → t ≤ (callAt s e j).2 → j = i) := by
  rw [timeRanges_length s e h]
  refine ⟨?_, ⟨windowAt_snd_last s e h, callAt_snd_last s e h⟩,
    fun oracle => runWindows_calls_take e (timeRanges s e) oracle, ?_⟩
  · intro i hi
    refine ⟨windowAt_snd_ne s e h i hi, ?_⟩
    rw [callAt_snd_lt s e h i hi, windowAt_snd_lt s e h i hi]
  · intro t ht1 ht2
    obtain ⟨i, hi, h1, h2⟩ := call_mem_exists s e h t ht1 ht2
    exact ⟨i, hi, ⟨h1, h2⟩,
      fun j hj hj1 hj2 => call_mem_unique s e h t j i hj hi hj1 hj2 h1 h2⟩

theorem C2_boundary_bounds_witness :
    callAt 1000 2500 0 = (1000, 1599) ∧ callAt 1000 2500 2 = (2200, 2500) := by
  have h := C2_boundary_bounds 1000 2500 (by decide)
  have h0 := (h.1 0 (by decide)).2
  have h2 := h.2.1.2
  constructor
  · refine Prod.ext ?_ ?_
    · rfl
    · rw [h0]
      rfl
  · refine Prod.ext ?_ ?_
    · rfl
    · show (callAt 1000 2500 ((timeRanges 1000 2500).length - 1)).2 = 2500
      rw [h2]

/-! ### The poll loop -/

lemma isPending_true_iff (st : String) :
    isPending st = true ↔ (st = "Scheduled" ∨ st = "Running") := by
  simp [isPending]

lemma isPending_false_iff (st : String) :
    isPending st = false ↔ (st ≠ "Scheduled" ∧ st ≠ "Running") := by
  simp [isPending]

lemma pollFirst_all_pending (pre : List QueryResponse)
    (hpre : ∀ x ∈ pre, x.status = "Scheduled" ∨ x.status = "Running") :
    pollFirst pre = none := by
  induction pre with
  | nil => rfl
  | cons x xs ih =>
    have hx : isPending x.status = true :=
      (isPending_true_iff x.status).mpr (hpre x (by simp))
    rw [pollFirst, if_pos hx]
    exact ih (fun y hy => hpre y (by simp [hy]))

lemma pollFirst_skip (pre post : List QueryResponse) (r : QueryResponse)
    (hpre : ∀ x ∈ pre, x.status = "Scheduled" ∨ x.status = "Running")
    (hr : r.status ≠ "Scheduled" ∧ r.status ≠ "Running") :
    pollFirst (pre ++ r :: post) = some r := by
  induction pre with
  | nil =>
    rw [List.nil_append, pollFirst, if_neg]
    rw [(isPending_false_iff r.status).mpr hr]
    simp
  | cons x xs ih =>
    have hx : isPending x.status = true :=
      (isPending_true_iff x.status).mpr (hpre x (by simp))
    rw [List.cons_append, pollFirst, if_pos hx]
    exact ih (fun y hy => hpre y (by simp [hy]))

/-- Claim C3: the poll loop (source lines 156-167) waits exactly while the
reported status is `Scheduled` or `Running` (an all-pending response
sequence never terminates it, and the first non-pending response decides it
regardless of anything after); the terminal response raises the
`InternalServerError` exactly when its status is not `Complete`, and in
that case the whole operation aborts with that error after the failing
window's single `start_query` call — no rows, no retry; on `Complete` the
window's normalized rows are prepended and the remaining windows proceed. -/
theorem C3_poll_terminal (pre post : List QueryResponse) (r : QueryResponse)
    (hpre : ∀ x ∈ pre, x.status = "Scheduled" ∨ x.status = "Running")
    (hr : r.status ≠ "Scheduled" ∧ r.status ≠ "Running") :
    pollFirst pre = none ∧
    pollFirst (pre ++ r :: post) = some r ∧
    (windowOutcome (pre ++ r :: post) = some (Except.error queryFailed) ↔
      r.status ≠ "Complete") ∧
    (r.status = "Complete" →
      windowOutcome (pre ++ r :: post) = some (Except.ok (r.results.map to_dict))) ∧
    (∀ (ltp : Int) (tr : Int × Int) (rest : List (Int × Int))
        (oracleRest : List (List QueryResponse)), r.status ≠ "Complete" →
      runWindows ltp (tr :: rest) ((pre ++ r :: post) :: oracleRest) =
        ([adjustEnd ltp tr], some (Except.error queryFailed))) ∧
    (∀ (ltp : Int) (tr : Int × Int) (rest : List (Int × Int))
        (oracleRest : List (List QueryResponse)), r.status = "Complete" →
      runWindows ltp (tr :: rest) ((pre ++ r :: post) :: oracleRest) =
        (adjustEnd ltp tr :: (runWindows ltp rest oracleRest).1,
          Option.map (Except.map (fun acc => r.results.map to_dict ++ acc))
            (runWindows ltp rest oracleRest).2)) := by
  have hpoll := pollFirst_skip pre post r hpre hr
  have hwoOk : r.status = "Complete" →
      windowOutcome (pre ++ r :: post) = some (Except.ok (r.results.map to_dict)) := by
    intro hc
    rw [windowOutcome, hpoll]
    simp [hc]
  have hwoErr : r.status ≠ "Complete" →
      windowOutcome (pre ++ r :: post) = some (Except.error queryFailed) := by
    intro hc
    rw [windowOutcome, hpoll]
    simp [hc]
  refine ⟨pollFirst_all_pending pre hpre, hpoll, ?_, hwoOk, ?_, ?_⟩
  · constructor
    · intro hw hc
      rw [hwoOk hc] at hw
      simp at hw
    · exact hwoErr
  · intro ltp tr rest oracleRest hc
    simp only [runWindows]
    rw [show ((pre ++ r :: post) :: oracleRest).headD [] = pre ++ r :: post from rfl,
      hwoErr hc]
  · intro ltp tr rest oracleRest hc
    simp only [runWindows]
    rw [show ((pre ++ r :: post) :: oracleRest).headD [] = pre ++ r :: post from rfl,
      hwoOk hc]
    rfl

theorem C3_poll_terminal_witness :
    pollFirst
      [⟨"Scheduled", []⟩, ⟨"Running", []⟩, ⟨"Running", []⟩,
        (⟨"Failed", []⟩ : QueryResponse)] = some ⟨"Failed", []⟩ ∧
    windowOutcome
      [⟨"Scheduled", []⟩, ⟨"Running", []⟩, ⟨"Running", []⟩,
        (⟨"Failed", []⟩ : QueryResponse)] = some (Except.error queryFailed) := by
  have h := C3_poll_terminal
    [⟨"Scheduled", []⟩, ⟨"Running", []⟩, ⟨"Running", []⟩] []
    (⟨"Failed", []⟩ : QueryResponse) (by decide) (by decide)
  exact ⟨h.2.1, (h.2.2.1).mpr (by decide)⟩

/-! ### Degenerate jobs -/

lemma timeRanges_self (s : Int) : timeRanges s s = [] := by
  have hcount : rangeCount s s 600 = 0 := by
    unfold rangeCount
    omega
  have hrange : pythonRange s s 600 = [] := by
    unfold pythonRange
    rw [hcount]
    rfl
  unfold timeRanges timePoints
  rw [hrange]
  rfl

/-- Claim C4 as stated is false: for a job whose effective end equals its
start time (here `startedAt = stoppedAt = 100`), `range(100, 100, 600)` is
empty, so the breakpoint list is the single point `[100]` and `pairwise`
yields zero windows — `query_logs_for_job` issues zero backend queries, not
exactly one, for every oracle (shown here at the empty oracle). -/
theorem C4_zero_duration_counterexample :
    timePoints 100 100 = [100] ∧
    timeRanges 100 100 = [] ∧
    (timeRanges 100 100).length ≠ 1 ∧
    query_logs_for_job zeroDurationJob 500 [] = ([], some (Except.ok [])) ∧
    (query_logs_for_job zeroDurationJob 500 []).1.length ≠ 1 := by
  refine ⟨rfl, rfl, by decide, rfl, by decide⟩

/-- Claim C4, amended: a job whose effective end time equals its (truthy)
start time yields zero windows, so `query_logs_for_job` makes no backend
call at all and returns the empty row list, for every backend oracle. -/
theorem C4_zero_duration_amended (job : JobDetail) (now st : Int)
    (oracle : List (List QueryResponse))
    (hs : job.startedAt = some st) (hnz : st ≠ 0)
    (he : effectiveEnd job.stoppedAt now = st) :
    query_logs_for_job job now oracle = ([], some (Except.ok [])) := by
  unfold query_logs_for_job
  rw [hs]
  simp only [hnz, if_false, reduceIte]
  rw [he, timeRanges_self st]
  rfl

theorem C4_zero_duration_amended_witness :
    query_logs_for_job zeroDurationJob 500 [[⟨"Complete", []⟩]] =
      ([], some (Except.ok [])) :=
  C4_zero_duration_amended zeroDurationJob 500 100 [[⟨"Complete", []⟩]]
    rfl (by decide) rfl

/-- Claim C5: a job record with no start time short-circuits before any
window planning or backend interaction — for every clock value and every
backend oracle the call trace is empty and the result is the empty row
list, returned normally (never a failure). -/
theorem C5_no_start_time (job : JobDetail) (now : Int)
    (oracle : List (List QueryResponse)) (h : job.startedAt = none) :
    query_logs_for_job job now oracle = ([], some (Except.ok [])) := by
  unfold query_logs_for_job
  rw [h]

theorem C5_no_start_time_witness :
    query_logs_for_job ⟨some "job-n", none, some 900, ⟨some "s"⟩⟩ 1000
      [[⟨"Failed", []⟩]] = ([], some (Except.ok [])) :=
  C5_no_start_time ⟨some "job-n", none, some 900, ⟨some "s"⟩⟩ 1000
    [[⟨"Failed", []⟩]] rfl

/-- Claim C10: because line 128 tests `if not start_time:`, a recorded
start time of exactly 0 is falsy and is treated identically to an absent
start time — empty call trace, empty row list, no backend interaction. -/
theorem C10_zero_start_time (job : JobDetail) (now : Int)
    (oracle : List (List QueryResponse)) (h : job.startedAt = some 0) :
    query_logs_for_job job now oracle = ([], some (Except.ok [])) := by
  unfold query_logs_for_job
  rw [h]
  simp

theorem C10_zero_start_time_witness :
    query_logs_for_job ⟨some "job-0", some 0, some 900, ⟨some "s"⟩⟩ 1000
      [[⟨"Failed", []⟩]] = ([], some (Except.ok [])) :=
  C10_zero_start_time ⟨some "job-0", some 0, some 900, ⟨some "s"⟩⟩ 1000
    [[⟨"Failed", []⟩]] rfl

/-! ### Full-success runs -/

lemma getD_zero_headD (oracle : List (List QueryResponse)) :
    oracle.getD 0 [] = oracle.headD [] := by
  cases oracle <;> rfl

lemma tail_getD (oracle : List (List QueryResponse)) (i : Nat) :
    oracle.tail.getD i [] = oracle.getD (i + 1) [] := by
  cases oracle <;> rfl

lemma runWindows_complete (ltp : Int) (trs : List (Int × Int))
    (oracle : List (List QueryResponse)) (resp : Nat → QueryResponse)
    (hres : ∀ i, i < trs.length →
      pollFirst (oracle.getD i []) = some (resp i) ∧ (resp i).status = "Complete") :
    runWindows ltp trs oracle =
      (trs.map (adjustEnd ltp),
        some (Except.ok
          (((List.range trs.length).map (fun i => (resp i).results.map to_dict)).flatten))) := by
  induction trs generalizing oracle resp with
  | nil => simp [runWindows]
  | cons tr rest ih =>
    have h0 := hres 0 (by simp)
    have hwo : windowOutcome (oracle.headD []) =
        some (Except.ok ((resp 0).results.map to_dict)) := by
      rw [windowOutcome, ← getD_zero_headD, h0.1]
      simp [h0.2]
    have ihh := ih oracle.tail (fun i => resp (i + 1)) ?_
    · simp only [runWindows]
      rw [hwo, ihh]
      simp only [List.length_cons, List.range_succ_eq_map, List.map_cons, List.map_map,
        List.flatten, List.map_cons]
      rfl
    · intro i hi
      rw [tail_getD]
      exact hres (i + 1) (by simpa using Nat.succ_lt_succ hi)

/-- Claim C9: when the job has a truthy start time and every planned
window's poll sequence terminates with status `Complete`,
`query_logs_for_job` submits exactly the adjusted bounds of every window in
order and returns exactly the concatenation of the per-window backend
result rows in increasing window order — each window's rows normalized by
`to_dict` in the order the backend returned them, with no global
re-sorting. -/
theorem C9_rows_in_window_order (job : JobDetail) (now st : Int)
    (oracle : List (List QueryResponse)) (resp : Nat → QueryResponse)
    (hs : job.startedAt = some st) (hnz : st ≠ 0)
    (hres : ∀ i, i < (timeRanges st (effectiveEnd job.stoppedAt now)).length →
      pollFirst (oracle.getD i []) = some (resp i) ∧ (resp i).status = "Complete") :
    query_logs_for_job job now oracle =
      ((timeRanges st (effectiveEnd job.stoppedAt now)).map
          (adjustEnd (effectiveEnd job.stoppedAt now)),
        some (Except.ok
          (((List.range (timeRanges st (effectiveEnd job.stoppedAt now)).length).map
              (fun i => (resp i).results.map to_dict)).flatten))) := by
  unfold query_logs_for_job
  rw [hs]
  simp only [hnz, reduceIte]
  exact runWindows_complete _ _ oracle resp hres

theorem C9_rows_in_window_order_witness :
    query_logs_for_job twoWindowJob 0 twoWindowOracle =
      ([(1, 600), (601, 700)],
        some (Except.ok [[("task", "a")], [("task", "b")], [("task", "c")]])) := by
  have h := C9_rows_in_window_order twoWindowJob 0 1 twoWindowOracle
    (fun i => if i = 0 then ⟨"Complete", [[⟨"@ptr", "p0"⟩, ⟨"task", "a"⟩]]⟩
      else ⟨"Complete", [[⟨"task", "b"⟩], [⟨"task", "c"⟩]]⟩)
    rfl (by decide) (by decide)
  rw [h]
  rfl

/-! ### `to_dict` and the record-locator field -/

lemma mem_dictInsert (d : List (String × String)) (k v : String)
    (p : String × String) (hp : p ∈ dictInsert d k v) :
    p.1 = k ∨ p ∈ d := by
  unfold dictInsert at hp
  by_cases hb : (d.any (fun q => q.1 == k)) = true
  · rw [if_pos hb] at hp
    obtain ⟨q, hq, hfq⟩ := List.mem_map.mp hp
    by_cases hqk : (q.1 == k) = true
    · rw [if_pos hqk] at hfq
      left
      rw [← hfq]
    · rw [if_neg hqk] at hfq
      right
      rw [← hfq]
      exact hq
  · rw [if_neg hb] at hp
    rcases List.mem_append.mp hp with h | h
    · right
      exact h
    · left
      simp at h
      rw [h]

lemma dictInsert_not_mem (d : List (String × String)) (k v : String)
    (hk : ∀ p ∈ d, p.1 ≠ k) : dictInsert d k v = d ++ [(k, v)] := by
  unfold dictInsert
  have hb : d.any (fun q => q.1 == k) = false := by
    rw [List.any_eq_false]
    intro q hq
    simpa using hk q hq
  rw [hb]
  simp

lemma foldl_insertStep_no_ptr (results : List ResultField)
    (d : List (String × String)) (hd : ∀ p ∈ d, p.1 ≠ "@ptr") :
    ∀ p ∈ results.foldl insertStep d, p.1 ≠ "@ptr" := by
  induction results generalizing d with
  | nil => exact hd
  | cons r rs ih =>
    intro p hp
    rw [List.foldl_cons] at hp
    by_cases hf : (r.field == "@ptr") = true
    · rw [show insertStep d r = d from by unfold insertStep; rw [if_pos hf]] at hp
      exact ih d hd p hp
    · rw [show insertStep d r = dictInsert d r.field r.value from by
        unfold insertStep; rw [if_neg hf]] at hp
      refine ih _ ?_ p hp
      intro q hq
      rcases mem_dictInsert _ _ _ q hq with h1 | h1
      · rw [h1]
        simpa using hf
      · exact hd q h1

lemma to_dict_no_ptr (results : List ResultField) :
    ∀ p ∈ to_dict results, p.1 ≠ "@ptr" :=
  foldl_insertStep_no_ptr results [] (by simp)

lemma foldl_insertStep_eq (results : List ResultField)
    (d : List (String × String))
    (hnd : (results.map ResultField.field).Nodup)
    (hdis : ∀ p ∈ d, ∀ r ∈ results, p.1 ≠ r.field) :
    results.foldl insertStep d =
      d ++ (results.filter (fun r => r.field != "@ptr")).map (fun r => (r.field, r.value)) := by
  induction results generalizing d with
  | nil => simp
  | cons r rs ih =>
    rw [List.map_cons, List.nodup_cons] at hnd
    rw [List.foldl_cons]
    by_cases hf : (r.field == "@ptr") = true
    · rw [show insertStep d r = d from by unfold insertStep; rw [if_pos hf]]
      rw [ih d hnd.2 (fun p hp r' hr' => hdis p hp r' (by simp [hr']))]
      have hfe : (r.field != "@ptr") = false := by
        simpa using hf
      rw [List.filter_cons, hfe]
      simp
    · rw [show insertStep d r = dictInsert d r.field r.value from by
        unfold insertStep; rw [if_neg hf]]
      rw [dictInsert_not_mem d r.field r.value
        (fun p hp => hdis p hp r (by simp))]
      rw [ih (d ++ [(r.field, r.value)]) hnd.2 ?_]
      · have hfe : (r.field != "@ptr") = true := by
          simpa using hf
        rw [List.filter_cons, hfe]
        simp
      · intro p hp r' hr'
        rcases List.mem_append.mp hp with h | h
        · exact hdis p h r' (by simp [hr'])
        · simp at h
          rw [h]
          intro hcontra
          simp at hcontra
          apply hnd.1
          rw [hcontra]
          exact List.mem_map_of_mem ResultField.field hr'

lemma windowOutcome_ok_rows (resps : List QueryResponse) (wrows : List LogRow)
    (h : windowOutcome resps = some (Except.ok wrows)) :
    ∀ row ∈ wrows, ∃ raw : List ResultField, row = to_dict raw := by
  unfold windowOutcome at h
  cases hpf : pollFirst resps with
  | none =>
    rw [hpf] at h
    simp at h
  | some rr =>
    rw [hpf] at h
    by_cases hcc : (rr.status == "Complete") = true
    · simp [hcc] at h
      intro row hrow
      rw [← h] at hrow
      obtain ⟨raw, _, hraw⟩ := List.mem_map.mp hrow
      exact ⟨raw, hraw.symm⟩
    · simp [hcc] at h

lemma runWindows_rows_from_to_dict (ltp : Int) (trs : List (Int × Int))
    (oracle : List (List QueryResponse)) (rows : List LogRow)
    (hok : (runWindows ltp trs oracle).2 = some (Except.ok rows)) :
    ∀ row ∈ rows, ∃ raw : List ResultField, row = to_dict raw := by
  induction trs generalizing oracle rows with
  | nil =>
    simp [runWindows] at hok
    subst hok
    simp
  | cons tr rest ih =>
    rw [show runWindows ltp (tr :: rest) oracle =
      (match windowOutcome (oracle.headD []) with
      | none => ([adjustEnd ltp tr], none)
      | some (Except.error e) => ([adjustEnd ltp tr], some (Except.error e))
      | some (Except.ok rows) =>
        (adjustEnd ltp tr :: (runWindows ltp rest oracle.tail).1,
          Option.map (Except.map (fun acc => rows ++ acc))
            (runWindows ltp rest oracle.tail).2)) from rfl] at hok
    cases hwo : windowOutcome (oracle.headD []) with
    | none =>
      rw [hwo] at hok
      simp at hok
    | some res =>
      cases res with
      | error err =>
        rw [hwo] at hok
        simp at hok
      | ok wrows =>
        rw [hwo] at hok
        simp only at hok
        cases hrest : (runWindows ltp rest oracle.tail).2 with
        | none =>
          rw [hrest] at hok
          simp at hok
        | some res2 =>
          cases res2 with
          | error err2 =>
            rw [hrest] at hok
            simp [Except.map] at hok
          | ok rrows =>
            rw [hrest] at hok
            have hcat : wrows ++ rrows = rows := by
              simpa [Except.map] using hok
            intro row hrow
            rw [← hcat] at hrow
            rcases List.mem_append.mp hrow with h | h
            · exact windowOutcome_ok_rows _ _ hwo row h
            · exact ih oracle.tail rrows hrest row h

/-- Claim C6: `to_dict` (source lines 172-177) never lets the internal
record-locator field `@ptr` through — no key of any produced dict is
`@ptr`, and for a backend row with distinct field names the produced dict
is exactly the row's non-`@ptr` `field`/`value` pairs in order (so every
other pair is preserved); consequently every row of a successful
`query_logs_for_job` result is some `to_dict` image and hence carries no
`@ptr` key. -/
theorem C6_ptr_stripped (results : List ResultField)
    (hnd : (results.map ResultField.field).Nodup) :
    (∀ p ∈ to_dict results, p.1 ≠ "@ptr") ∧
    to_dict results =
      (results.filter (fun r => r.field != "@ptr")).map (fun r => (r.field, r.value)) ∧
    (∀ (job : JobDetail) (now : Int) (oracle : List (List QueryResponse))
        (rows : List LogRow),
      (query_logs_for_job job now oracle).2 = some (Except.ok rows) →
      ∀ row ∈ rows, ∀ p ∈ row, p.1 ≠ "@ptr") := by
  refine ⟨to_dict_no_ptr results, ?_, ?_⟩
  · have h := foldl_insertStep_eq results [] hnd (by simp)
    rw [to_dict, h]
    simp
  · intro job now oracle rows hok row hrow p hp
    have hfrom : ∀ r ∈ rows, ∃ raw : List ResultField, r = to_dict raw := by
      cases hst : job.startedAt with
      | none =>
        rw [query_logs_for_job_none job now oracle hst] at hok
        simp at hok
        subst hok
        simp
      | some st =>
        by_cases hz : st = 0
        · rw [hz] at hst
          rw [query_logs_for_job_zero job now oracle hst] at hok
          simp at hok
          subst hok
          simp
        · rw [query_logs_for_job_some job now st oracle hst hz] at hok
          exact runWindows_rows_from_to_dict _ _ _ _ hok
    obtain ⟨raw, hraw⟩ := hfrom row hrow
    rw [hraw] at hp
    exact to_dict_no_ptr raw p hp

theorem C6_ptr_stripped_witness :
    to_dict [⟨"@ptr", "locator"⟩, ⟨"jobId", "j-1"⟩, ⟨"status", "ok"⟩] =
      [("jobId", "j-1"), ("status", "ok")] :=
  (C6_ptr_stripped [⟨"@ptr", "locator"⟩, ⟨"jobId", "j-1"⟩, ⟨"status", "ok"⟩]
    (by decide)).2.1.trans (by rfl)

/-! ### The two extractors -/

/-- Claim C7: when the job's container has no `logStreamName`, both
extractors short-circuit with no backend interaction for every oracle and
every `describe_jobs` collaborator: `get_child_tasks` (source lines 93-94)
returns the empty job list and `get_task_outputs` (source lines 68-88)
returns the summary dict with an empty `outputs` list — in both cases the
call trace is empty and no failure is raised.  (The start-time hypothesis
mirrors the claim's wording; the short-circuit happens regardless.) -/
theorem C7_no_log_stream (job : JobDetail) (now st : Int)
    (oracle : List (List QueryResponse))
    (describe_jobs : List String → List JobDetail)
    (hstart : job.startedAt = some st)
    (hls : job.container.logStreamName = none) :
    get_child_tasks job now oracle describe_jobs = ([], some (Except.ok [])) ∧
    get_task_outputs job now oracle =
      ([], some (Except.ok [("id", SummaryValue.str job.jobId),
        ("outputs", SummaryValue.rows [])])) := by
  constructor
  · unfold get_child_tasks
    rw [hls]
  · unfold get_task_outputs
    rw [hls]
    rfl

theorem C7_no_log_stream_witness :
    get_child_tasks ⟨some "job-7", some 50, none, ⟨none⟩⟩ 1000 [[⟨"Failed", []⟩]]
      (fun _ => []) = ([], some (Except.ok [])) ∧
    get_task_outputs ⟨some "job-7", some 50, none, ⟨none⟩⟩ 1000 [[⟨"Failed", []⟩]] =
      ([], some (Except.ok [("id", SummaryValue.str (some "job-7")),
        ("outputs", SummaryValue.rows [])])) :=
  C7_no_log_stream ⟨some "job-7", some 50, none, ⟨none⟩⟩ 1000 50 [[⟨"Failed", []⟩]]
    (fun _ => []) rfl rfl

/-- Claim C8 as stated is false: the summary dict built on source lines
85-88 is `{"id": head_job.get("jobId"), "outputs": outputs}` — its keys are
`id` and `outputs`, so looking up a field named `jobId` in the summary
returned for a concrete job yields nothing, while the identifier sits under
the key `id`. -/
theorem C8_field_named_id_counterexample :
    (get_task_outputs namedJob 0 []).2 =
      some (Except.ok [("id", SummaryValue.str (some "job-123")),
        ("outputs", SummaryValue.rows [])]) ∧
    List.lookup "jobId" [("id", SummaryValue.str (some "job-123")),
      ("outputs", SummaryValue.rows [])] = none ∧
    List.lookup "id" [("id", SummaryValue.str (some "job-123")),
      ("outputs", SummaryValue.rows [])] = some (SummaryValue.str (some "job-123")) := by
  refine ⟨rfl, rfl, rfl⟩

/-- Claim C8, amended: every summary `get_task_outputs` returns normally is
the two-entry dict whose `id` field holds the job's identifier (as read by
`head_job.get("jobId")`) and whose `outputs` field holds the extracted
rows; it has no field named `jobId`. -/
theorem C8_summary_shape (job : JobDetail) (now : Int)
    (oracle : List (List QueryResponse))
    (out : List (String × SummaryValue))
    (h : (get_task_outputs job now oracle).2 = some (Except.ok out)) :
    List.lookup "id" out = some (SummaryValue.str job.jobId) ∧
    List.lookup "jobId" out = none ∧
    ∃ rows : List LogRow,
      List.lookup "outputs" out = some (SummaryValue.rows rows) ∧
      out = [("id", SummaryValue.str job.jobId), ("outputs", SummaryValue.rows rows)] := by
  have hout : ∃ rows : List LogRow, out = taskSummary job rows := by
    unfold get_task_outputs at h
    cases hls : job.container.logStreamName with
    | none =>
      rw [hls] at h
      simp at h
      exact ⟨[], h.symm⟩
    | some s =>
      rw [hls] at h
      simp only at h
      cases hq : (query_logs_for_job job now oracle).2 with
      | none =>
        rw [hq] at h
        simp at h
      | some res =>
        cases res with
        | error err =>
          rw [hq] at h
          simp [Except.map] at h
        | ok rows =>
          rw [hq] at h
          simp [Except.map] at h
          exact ⟨rows, h.symm⟩
  obtain ⟨rows, hrows⟩ := hout
  subst hrows
  exact ⟨rfl, rfl, rows, rfl, rfl⟩

theorem C8_summary_shape_witness :
    List.lookup "id" [("id", SummaryValue.str (some "job-123")),
        ("outputs", SummaryValue.rows [])] = some (SummaryValue.str (some "job-123")) ∧
    List.lookup "jobId" [("id", SummaryValue.str (some "job-123")),
        ("outputs", SummaryValue.rows [])] = none :=
  ⟨(C8_summary_shape namedJob 0 [] _ rfl).1, (C8_summary_shape namedJob 0 [] _ rfl).2.1⟩

end NextflowWES
